import Mathlib

/-!
Shallow embedding of the HL7 parser from `src/main.py` and `src/api/index.py`
(functions `parse_hl7_segment` and `parse_hl7_message`), together with proofs
about its tokenization, aggregation, grouping and message-type derivation.

Python strings are modelled as Lean `String`; the Python built-ins
`str.split(sep)`, `str.strip()`, `in` (substring test on a one-character
needle) and `sep.join` are modelled character-list-recursively so that all
definitions evaluate by kernel reduction.
-/

namespace HL7

/-- Python `s.split(c)` for a one-character separator, over the character
list: empty-preserving, always returns at least one (possibly empty) piece. -/
def splitOnChar (c : Char) : List Char → List (List Char)
  | [] => [[]]
  | x :: xs =>
    match splitOnChar c xs with
    | [] => [[]]
    | y :: ys => if x = c then [] :: y :: ys else (x :: y) :: ys

/-- Python `s.split(c)` lifted to `String`. -/
def pySplit (s : String) (c : Char) : List String :=
  (splitOnChar c s.data).map String.mk

/-- Python `c in s` for a single character `c`. -/
def pyContains (s : String) (c : Char) : Bool :=
  s.data.contains c

/-- The whitespace characters stripped by Python `str.strip()`
(ASCII subset; the inputs of interest contain no other whitespace). -/
def isPySpace (c : Char) : Bool :=
  c = ' ' || c = '\t' || c = '\n' || c = '\r' || c = '\x0b' || c = '\x0c'

/-- Python `s.strip()`. -/
def pyStrip (s : String) : String :=
  String.mk (((s.data.dropWhile isPySpace).reverse.dropWhile isPySpace).reverse)

/-- Python `c.join(pieces)` for a one-character separator, over character
lists. -/
def joinWithChar (c : Char) : List (List Char) → List Char
  | [] => []
  | [x] => x
  | x :: y :: ys => x ++ c :: joinWithChar c (y :: ys)

/-- Python `c.join(pieces)` lifted to `String`. -/
def pyJoin (c : Char) (pieces : List String) : String :=
  String.mk (joinWithChar c (pieces.map String.data))

/-- One parsed field of a segment: the dict
`{"field_number": i, "value": field}` optionally carrying `"subfields"`,
as built by `parse_hl7_segment` in `src/main.py`. -/
structure Field where
  field_number : Nat
  value : String
  subfields : Option (List String)
deriving Repr, DecidableEq, Inhabited

/-- The dict `{"segment_type": ..., "fields": [...]}` returned by
`parse_hl7_segment`. -/
structure Segment where
  segment_type : String
  fields : List Field
deriving Repr, DecidableEq, Inhabited

/-- A segment after `parse_hl7_message` has added the `"segment_number"`
key (the per-type occurrence number). -/
structure NumberedSegment where
  segment_type : String
  fields : List Field
  segment_number : Nat
deriving Repr, DecidableEq, Inhabited

/-- The loop `for i, field in enumerate(parts[1:], 1): if field: ...` of
`parse_hl7_segment` (src/main.py lines 29-45): skip empty tokens, attach
`subfields` exactly when the token contains a caret. -/
def buildFields : Nat → List String → List Field
  | _, [] => []
  | i, f :: rest =>
    if f = "" then buildFields (i + 1) rest
    else if pyContains f '^' then
      { field_number := i, value := f, subfields := some (pySplit f '^') }
        :: buildFields (i + 1) rest
    else
      { field_number := i, value := f, subfields := none }
        :: buildFields (i + 1) rest

/-- `parse_hl7_segment` from src/main.py lines 19-47: split the line on `|`,
first token is the segment type, remaining tokens become fields. -/
def parse_hl7_segment (segment : String) : Segment :=
  let parts := pySplit segment '|'
  { segment_type := parts.headI, fields := buildFields 1 parts.tail }

/-- The exceptions `parse_hl7_message` can raise: the explicit
`ValueError("Empty HL7 message")` and the `IndexError` from the list
indexing `msh_segment["fields"][8]`. -/
inductive ParseError where
  | emptyInput
  | indexError
deriving Repr, DecidableEq

/-- Line normalization of `parse_hl7_message` (src/main.py line 51):
`[line.strip() for line in hl7_data.strip().split('\n') if line.strip()]`. -/
def pyLines (hl7_data : String) : List String :=
  ((pySplit (pyStrip hl7_data) '\n').map pyStrip).filter (fun l => l ≠ "")

/-- Message-type derivation of `parse_hl7_message` (src/main.py lines 56-65):
guarded by `msh_segment["fields"] and len(msh_segment["fields"]) >= 8`, then
indexes `fields[8]` (which can raise `IndexError`) and splits on `^`. -/
def deriveMessageType (msh : Segment) : Except ParseError String :=
  if msh.fields ≠ [] ∧ 8 ≤ msh.fields.length then
    match msh.fields[8]? with
    | none => .error .indexError
    | some fld =>
      if pyContains fld.value '^' then .ok ((pySplit fld.value '^').headI)
      else .ok fld.value
  else .ok "Unknown"

/-- The Python dict `segment_counts` as an insertion-ordered association
list; `updateCounts` models
`if t not in counts: counts[t] = 0` followed by `counts[t] += 1`. -/
def updateCounts : List (String × Nat) → String → List (String × Nat)
  | [], t => [(t, 1)]
  | p :: rest, t =>
    if p.1 = t then (p.1, p.2 + 1) :: rest else p :: updateCounts rest t

/-- Dict lookup in `segment_counts` (0 when absent; `parse_hl7_message`
only reads keys it has just written). -/
def lookupCount : List (String × Nat) → String → Nat
  | [], _ => 0
  | p :: rest, t => if p.1 = t then p.2 else lookupCount rest t

/-- The main loop of `parse_hl7_message` (src/main.py lines 71-82): parse
each line, bump the per-type counter, attach the post-increment value as
`segment_number`, append to `segments`. -/
def aggLoop : List String → List (String × Nat) → List NumberedSegment →
    List NumberedSegment × List (String × Nat)
  | [], counts, segments => (segments, counts)
  | line :: rest, counts, segments =>
    let seg := parse_hl7_segment line
    let counts2 := updateCounts counts seg.segment_type
    aggLoop rest counts2
      (segments ++ [{ segment_type := seg.segment_type, fields := seg.fields,
                      segment_number := lookupCount counts2 seg.segment_type }])

/-- One step of the grouping loop (src/main.py lines 85-89): the dict
`grouped_segments`, appending each segment to its type's bucket. -/
def addToGroup : List (String × List NumberedSegment) → NumberedSegment →
    List (String × List NumberedSegment)
  | [], seg => [(seg.segment_type, [seg])]
  | p :: rest, seg =>
    if p.1 = seg.segment_type then (p.1, p.2 ++ [seg]) :: rest
    else p :: addToGroup rest seg

/-- The grouping loop of `parse_hl7_message`. -/
def groupSegments (segments : List NumberedSegment) :
    List (String × List NumberedSegment) :=
  segments.foldl addToGroup []

/-- Python `grouped_segments.get(t, [])`. -/
def getGroup : List (String × List NumberedSegment) → String →
    List NumberedSegment
  | [], _ => []
  | p :: rest, t => if p.1 = t then p.2 else getGroup rest t

/-- The dict returned by `parse_hl7_message` (src/main.py lines 92-104). -/
structure ParsedDocument where
  message_header : List NumberedSegment
  patient_identification : List NumberedSegment
  patient_visit : List NumberedSegment
  common_order : List NumberedSegment
  observation_request : List NumberedSegment
  observations : List NumberedSegment
  notes : List NumberedSegment
  specimen : List NumberedSegment
  all_segments : List NumberedSegment
  segment_counts : List (String × Nat)
  message_type : String
deriving Repr, DecidableEq, Inhabited

/-- `parse_hl7_message` from src/main.py lines 49-104.  Raising is modelled
with `Except`: `ValueError("Empty HL7 message")` on no non-blank lines, and
the `IndexError` that `msh_segment["fields"][8]` raises when the guard
`len(fields) >= 8` passes with exactly 8 present fields. -/
def parse_hl7_message (hl7_data : String) : Except ParseError ParsedDocument :=
  let lines := pyLines hl7_data
  if lines = [] then .error .emptyInput
  else
    let msh_segment := parse_hl7_segment lines.headI
    match deriveMessageType msh_segment with
    | .error e => .error e
    | .ok message_type =>
      let res := aggLoop lines [] []
      let grouped_segments := groupSegments res.1
      .ok {
        message_header := getGroup grouped_segments "MSH"
        patient_identification := getGroup grouped_segments "PID"
        patient_visit := getGroup grouped_segments "PV1"
        common_order := getGroup grouped_segments "ORC"
        observation_request := getGroup grouped_segments "OBR"
        observations := getGroup grouped_segments "OBX"
        notes := getGroup grouped_segments "NTE"
        specimen := getGroup grouped_segments "SPM"
        all_segments := res.1
        segment_counts := res.2
        message_type := message_type }

end HL7

namespace HL7.api

/-- The loop of `parse_hl7_segment` from src/api/index.py lines 28-43
(textual duplicate of the copy in src/main.py). -/
def buildFields : Nat → List String → List Field
  | _, [] => []
  | i, f :: rest =>
    if f = "" then buildFields (i + 1) rest
    else if pyContains f '^' then
      { field_number := i, value := f, subfields := some (pySplit f '^') }
        :: buildFields (i + 1) rest
    else
      { field_number := i, value := f, subfields := none }
        :: buildFields (i + 1) rest

/-- `parse_hl7_segment` from src/api/index.py lines 17-45. -/
def parse_hl7_segment (segment : String) : Segment :=
  let parts := pySplit segment '|'
  { segment_type := parts.headI, fields := buildFields 1 parts.tail }

/-- Line normalization of `parse_hl7_message` (src/api/index.py line 49). -/
def pyLines (hl7_data : String) : List String :=
  ((pySplit (pyStrip hl7_data) '\n').map pyStrip).filter (fun l => l ≠ "")

/-- Message-type derivation of `parse_hl7_message`
(src/api/index.py lines 57-63). -/
def deriveMessageType (msh : Segment) : Except ParseError String :=
  if msh.fields ≠ [] ∧ 8 ≤ msh.fields.length then
    match msh.fields[8]? with
    | none => .error .indexError
    | some fld =>
      if pyContains fld.value '^' then .ok ((pySplit fld.value '^').headI)
      else .ok fld.value
  else .ok "Unknown"

/-- `segment_counts` update of src/api/index.py lines 71-74. -/
def updateCounts : List (String × Nat) → String → List (String × Nat)
  | [], t => [(t, 1)]
  | p :: rest, t =>
    if p.1 = t then (p.1, p.2 + 1) :: rest else p :: updateCounts rest t

/-- Dict lookup in the api copy's `segment_counts`. -/
def lookupCount : List (String × Nat) → String → Nat
  | [], _ => 0
  | p :: rest, t => if p.1 = t then p.2 else lookupCount rest t

/-- The main loop of `parse_hl7_message` (src/api/index.py lines 69-80). -/
def aggLoop : List String → List (String × Nat) → List NumberedSegment →
    List NumberedSegment × List (String × Nat)
  | [], counts, segments => (segments, counts)
  | line :: rest, counts, segments =>
    let seg := parse_hl7_segment line
    let counts2 := updateCounts counts seg.segment_type
    aggLoop rest counts2
      (segments ++ [{ segment_type := seg.segment_type, fields := seg.fields,
                      segment_number := lookupCount counts2 seg.segment_type }])

/-- One step of the grouping loop (src/api/index.py lines 83-87). -/
def addToGroup : List (String × List NumberedSegment) → NumberedSegment →
    List (String × List NumberedSegment)
  | [], seg => [(seg.segment_type, [seg])]
  | p :: rest, seg =>
    if p.1 = seg.segment_type then (p.1, p.2 ++ [seg]) :: rest
    else p :: addToGroup rest seg

/-- The grouping loop of the api copy. -/
def groupSegments (segments : List NumberedSegment) :
    List (String × List NumberedSegment) :=
  segments.foldl addToGroup []

/-- Python `grouped_segments.get(t, [])` in the api copy. -/
def getGroup : List (String × List NumberedSegment) → String →
    List NumberedSegment
  | [], _ => []
  | p :: rest, t => if p.1 = t then p.2 else getGroup rest t

/-- `parse_hl7_message` from src/api/index.py lines 47-102. -/
def parse_hl7_message (hl7_data : String) : Except ParseError ParsedDocument :=
  let lines := pyLines hl7_data
  if lines = [] then .error .emptyInput
  else
    let msh_segment := parse_hl7_segment lines.headI
    match deriveMessageType msh_segment with
    | .error e => .error e
    | .ok message_type =>
      let res := aggLoop lines [] []
      let grouped_segments := groupSegments res.1
      .ok {
        message_header := getGroup grouped_segments "MSH"
        patient_identification := getGroup grouped_segments "PID"
        patient_visit := getGroup grouped_segments "PV1"
        common_order := getGroup grouped_segments "ORC"
        observation_request := getGroup grouped_segments "OBR"
        observations := getGroup grouped_segments "OBX"
        notes := getGroup grouped_segments "NTE"
        specimen := getGroup grouped_segments "SPM"
        all_segments := res.1
        segment_counts := res.2
        message_type := message_type }

end HL7.api

namespace HL7

lemma api_buildFields_eq (l : List String) : ∀ i, api.buildFields i l = buildFields i l := by
  induction l with
  | nil => intro i; rfl
  | cons f rest ih => intro i; simp only [api.buildFields, buildFields, ih]

lemma api_parse_hl7_segment_eq (line : String) :
    api.parse_hl7_segment line = parse_hl7_segment line := by
  simp only [api.parse_hl7_segment, parse_hl7_segment, api_buildFields_eq]

lemma api_pyLines_eq (s : String) : api.pyLines s = pyLines s := rfl

lemma api_deriveMessageType_eq (m : Segment) :
    api.deriveMessageType m = deriveMessageType m := rfl

lemma api_updateCounts_eq (c : List (String × Nat)) (t : String) :
    api.updateCounts c t = updateCounts c t := by
  induction c with
  | nil => rfl
  | cons p rest ih => simp only [api.updateCounts, updateCounts, ih]

lemma api_lookupCount_eq (c : List (String × Nat)) (t : String) :
    api.lookupCount c t = lookupCount c t := by
  induction c with
  | nil => rfl
  | cons p rest ih => simp only [api.lookupCount, lookupCount, ih]

lemma api_aggLoop_eq (lines : List String) :
    ∀ counts segments, api.aggLoop lines counts segments = aggLoop lines counts segments := by
  induction lines with
  | nil => intro counts segments; rfl
  | cons line rest ih =>
    intro counts segments
    simp only [api.aggLoop, aggLoop, api_parse_hl7_segment_eq, api_updateCounts_eq,
      api_lookupCount_eq, ih]

lemma api_addToGroup_eq (gs : List (String × List NumberedSegment)) (seg : NumberedSegment) :
    api.addToGroup gs seg = addToGroup gs seg := by
  induction gs with
  | nil => rfl
  | cons p rest ih => simp only [api.addToGroup, addToGroup, ih]

lemma api_groupSegments_eq (segments : List NumberedSegment) :
    api.groupSegments segments = groupSegments segments := by
  simp only [api.groupSegments, groupSegments]
  congr 1
  funext gs seg
  exact api_addToGroup_eq gs seg

lemma api_getGroup_eq (gs : List (String × List NumberedSegment)) (t : String) :
    api.getGroup gs t = getGroup gs t := by
  induction gs with
  | nil => rfl
  | cons p rest ih => simp only [api.getGroup, getGroup, ih]

lemma api_parse_hl7_message_eq (s : String) :
    api.parse_hl7_message s = parse_hl7_message s := by
  simp only [api.parse_hl7_message, parse_hl7_message, api_pyLines_eq,
    api_parse_hl7_segment_eq, api_deriveMessageType_eq, api_aggLoop_eq,
    api_groupSegments_eq, api_getGroup_eq]

/-- C9: the two copies of the parser — `parse_hl7_segment` /
`parse_hl7_message` in src/main.py and in src/api/index.py — are
behaviorally identical: on every line the segment tokenizers agree, and on
every input string the message parsers return the same result and fail
(raise) under exactly the same conditions. -/
theorem duplicate_parsers_agree :
    (∀ line, api.parse_hl7_segment line = parse_hl7_segment line) ∧
    (∀ s, api.parse_hl7_message s = parse_hl7_message s) :=
  ⟨api_parse_hl7_segment_eq, api_parse_hl7_message_eq⟩

/-- C1 (failing input): a header with exactly 8 present fields passes the
guard `len(msh_segment["fields"]) >= 8` of src/main.py line 59, so the
code evaluates `msh_segment["fields"][8]` and raises IndexError instead of
returning `message_type = "Unknown"` as the claim requires for headers
with fewer than 9 present fields. -/
theorem header_exactly_eight_fields_raises :
    parse_hl7_message "MSH|1|2|3|4|5|6|7|8" = .error .indexError := rfl

/-- C2 (failing input): on a document whose header has exactly 8 present
fields, `parse_hl7_message` raises IndexError — an exception other than
the empty-input error — contradicting the claim that `EmptyInputError` is
the only exception the parser can raise. -/
theorem parse_raises_beyond_empty_input :
    parse_hl7_message "ZZZ|a|b|c|d|e|f|g|h" = .error .indexError := rfl

/-- C3 (failing input): the spec scenario header
`MSH|^~\&|TEST|TEST|||20250101120000||ORU^R01|123|P|2.4` has exactly 8
present fields (positions 4, 5 and 7 are empty and emit no Field), so the
guard `len(fields) >= 8` passes and `fields[8]` raises IndexError; the
code never returns `message_type = "ORU"` on this input. -/
theorem test_scenario_header_raises :
    parse_hl7_message "MSH|^~\\&|TEST|TEST|||20250101120000||ORU^R01|123|P|2.4"
      = .error .indexError := rfl

/-- C8: `parse_hl7_message` is a pure, deterministic function of its input
string: it threads no state across calls (its per-type counters are the
`[]`-initialized accumulators of `aggLoop`, local to one call), so any two
calls on identical input yield structurally identical results. -/
theorem parse_deterministic (s₁ s₂ : String) (h : s₁ = s₂) :
    parse_hl7_message s₁ = parse_hl7_message s₂ := by rw [h]

/-- Witness for C8 at a concrete input. -/
theorem parse_deterministic_witness :
    parse_hl7_message "MSH|a|b" = parse_hl7_message "MSH|a|b" :=
  parse_deterministic "MSH|a|b" "MSH|a|b" rfl

lemma splitOnChar_of_not_mem {c : Char} {l : List Char} (h : c ∉ l) :
    splitOnChar c l = [l] := by
  induction l with
  | nil => rfl
  | cons x xs ih =>
    have hx : ¬x = c := fun hxc => h (hxc ▸ List.mem_cons_self x xs)
    have hxs : c ∉ xs := fun hm => h (List.mem_cons_of_mem x hm)
    simp only [splitOnChar, ih hxs, if_neg hx]

/-- C7: the tokenizer is total — modelled as a Lean function it returns a
`Segment` on every input — and on a line containing no `|` delimiter at
all it returns a Segment whose `segment_type` is the entire line and whose
field list is empty. -/
theorem tokenize_no_delimiter (line : String) (h : pyContains line '|' = false) :
    (parse_hl7_segment line).segment_type = line ∧
      (parse_hl7_segment line).fields = [] := by
  have hmem : ('|' : Char) ∉ line.data := by
    simpa [pyContains, List.contains] using h
  have hsplit : pySplit line '|' = [line] := by
    simp [pySplit, splitOnChar_of_not_mem hmem]
  constructor
  · simp [parse_hl7_segment, hsplit]
  · simp [parse_hl7_segment, hsplit, buildFields]

/-- Witness for C7 at a concrete delimiter-free line. -/
theorem tokenize_no_delimiter_witness :
    (parse_hl7_segment "HELLO WORLD").segment_type = "HELLO WORLD" ∧
      (parse_hl7_segment "HELLO WORLD").fields = [] :=
  tokenize_no_delimiter "HELLO WORLD" (by decide)

/-- The Field a non-empty token at 1-based position `p.1` is turned into. -/
def mkField (p : Nat × String) : Option Field :=
  if p.2 = "" then none
  else some { field_number := p.1, value := p.2,
              subfields := if pyContains p.2 '^' then some (pySplit p.2 '^') else none }

lemma buildFields_eq_filterMap (toks : List String) :
    ∀ i, buildFields i toks = (List.enumFrom i toks).filterMap mkField := by
  induction toks with
  | nil => intro i; rfl
  | cons f rest ih =>
    intro i
    by_cases hf : f = ""
    · simp [buildFields, hf, List.enumFrom, List.filterMap_cons, mkField, ih]
    · by_cases hc : pyContains f '^' = true
      · simp [buildFields, hf, hc, List.enumFrom, List.filterMap_cons, mkField, ih]
      · simp [buildFields, hf, hc, List.enumFrom, List.filterMap_cons, mkField, ih]

lemma buildFields_subfields_iff (toks : List String) :
    ∀ i, ((buildFields i toks).all
      fun f => f.subfields.isSome == pyContains f.value '^') = true := by
  induction toks with
  | nil => intro i; rfl
  | cons f rest ih =>
    intro i
    by_cases hf : f = ""
    · simp [buildFields, hf, ih]
    · by_cases hc : pyContains f '^' = true
      · simp [buildFields, hf, hc, ih]
      · simp [buildFields, hf, hc, ih]

/-- C4: for every line, `parse_hl7_segment` splits on `|` preserving empty
substrings, takes the first token as the segment type, and turns the
remaining tokens, enumerated from 1-based position 1, into fields: an
empty token yields no Field (a gap at that position), a non-empty token
containing `^` yields a Field carrying its empty-preserving `^`-split as
subfields, and any other token yields a Field with the raw value only;
consequently a Field carries subfields exactly when its value contains
`^`. -/
theorem tokenize_spec (line : String) :
    (parse_hl7_segment line).segment_type = (pySplit line '|').headI ∧
    (parse_hl7_segment line).fields
      = (List.enumFrom 1 (pySplit line '|').tail).filterMap mkField ∧
    ((parse_hl7_segment line).fields.all
      fun f => f.subfields.isSome == pyContains f.value '^') = true :=
  ⟨rfl, buildFields_eq_filterMap (pySplit line '|').tail 1,
    buildFields_subfields_iff (pySplit line '|').tail 1⟩

lemma splitOnChar_ne_nil (c : Char) (l : List Char) : splitOnChar c l ≠ [] := by
  cases l with
  | nil => simp [splitOnChar]
  | cons x xs =>
    simp only [splitOnChar]
    cases h : splitOnChar c xs with
    | nil => simp
    | cons y ys =>
      by_cases hx : x = c <;> simp [hx]

lemma joinWithChar_splitOnChar (c : Char) (l : List Char) :
    joinWithChar c (splitOnChar c l) = l := by
  induction l with
  | nil => rfl
  | cons x xs ih =>
    simp only [splitOnChar]
    cases h : splitOnChar c xs with
    | nil => exact absurd h (splitOnChar_ne_nil c xs)
    | cons y ys =>
      rw [h] at ih
      by_cases hx : x = c
      · subst hx
        simp only [if_pos rfl, joinWithChar]
        cases ys with
        | nil => simpa [joinWithChar] using ih
        | cons z zs => simpa [joinWithChar] using ih
      · simp only [if_neg hx]
        cases ys with
        | nil => simpa [joinWithChar] using ih
        | cons z zs =>
          simp only [joinWithChar, List.cons_append] at ih ⊢
          simpa using ih

lemma two_le_splitOnChar_length {c : Char} {l : List Char}
    (h : c ∈ l) : 2 ≤ (splitOnChar c l).length := by
  induction l with
  | nil => cases h
  | cons x xs ih =>
    simp only [splitOnChar]
    cases hs : splitOnChar c xs with
    | nil => exact absurd hs (splitOnChar_ne_nil c xs)
    | cons y ys =>
      by_cases hx : x = c
      · simp [hx]
      · have hxs : c ∈ xs := by
          rcases List.mem_cons.mp h with h1 | h2
          · exact absurd h1.symm hx
          · exact h2
        have := ih hxs
        rw [hs] at this
        simpa [hx] using this

lemma pyJoin_pySplit (s : String) (c : Char) : pyJoin c (pySplit s c) = s := by
  simp only [pyJoin, pySplit, List.map_map]
  have hmaps : ((splitOnChar c s.data).map fun l => (String.mk l).data)
      = splitOnChar c s.data := by
    simp
  show String.mk (joinWithChar c ((splitOnChar c s.data).map
    fun l => (String.mk l).data)) = s
  rw [hmaps, joinWithChar_splitOnChar]

lemma mem_buildFields_subfields (toks : List String) :
    ∀ i f, f ∈ buildFields i toks → ∀ subs, f.subfields = some subs →
      pyContains f.value '^' = true ∧ subs = pySplit f.value '^' := by
  induction toks with
  | nil => intro i f hf; cases hf
  | cons t rest ih =>
    intro i f hf subs hs
    by_cases ht : t = ""
    · rw [buildFields, if_pos ht] at hf
      exact ih (i + 1) f hf subs hs
    · by_cases hc : pyContains t '^' = true
      · rw [buildFields, if_neg ht, if_pos hc] at hf
        rcases List.mem_cons.mp hf with rfl | hmem
        · refine ⟨hc, ?_⟩
          simpa using hs.symm
        · exact ih (i + 1) f hmem subs hs
      · rw [buildFields, if_neg ht, if_neg hc] at hf
        rcases List.mem_cons.mp hf with rfl | hmem
        · simp at hs
        · exact ih (i + 1) f hmem subs hs

/-- C10: every Field of a tokenized line that carries subfields has at
least two of them, and joining the subfields back with `^` reconstructs
the field's raw value exactly. -/
theorem subfields_join_roundtrip (line : String) (f : Field)
    (hf : f ∈ (parse_hl7_segment line).fields) (subs : List String)
    (hs : f.subfields = some subs) :
    2 ≤ subs.length ∧ pyJoin '^' subs = f.value := by
  obtain ⟨hc, hsubs⟩ :=
    mem_buildFields_subfields (pySplit line '|').tail 1 f hf subs hs
  subst hsubs
  refine ⟨?_, pyJoin_pySplit f.value '^'⟩
  have hmem : ('^' : Char) ∈ f.value.data := by
    simpa [pyContains, List.contains] using hc
  have := two_le_splitOnChar_length hmem
  simpa [pySplit] using this

/-- Witness for C10 at the spec's OBX scenario line, field at position 3. -/
theorem subfields_join_roundtrip_witness :
    2 ≤ (["TEST", "Test Result", "TEST"] : List String).length ∧
      pyJoin '^' ["TEST", "Test Result", "TEST"] = "TEST^Test Result^TEST" :=
  subfields_join_roundtrip
    "OBX|1|NM|TEST^Test Result^TEST||10.5|mg/dl^^L|5.0-15.0||||F||||||||"
    { field_number := 3, value := "TEST^Test Result^TEST",
      subfields := some ["TEST", "Test Result", "TEST"] }
    (by decide) ["TEST", "Test Result", "TEST"] rfl

/-- The tokenizer part of a numbered segment (drops `segment_number`). -/
def segContent (s : NumberedSegment) : Segment :=
  { segment_type := s.segment_type, fields := s.fields }

lemma segContent_mk (seg : Segment) (n : Nat) :
    segContent { segment_type := seg.segment_type, fields := seg.fields,
                 segment_number := n } = seg := rfl

lemma parse_ok_components (s : String) (doc : ParsedDocument)
    (h : parse_hl7_message s = .ok doc) :
    doc.all_segments = (aggLoop (pyLines s) [] []).1 ∧
      doc.segment_counts = (aggLoop (pyLines s) [] []).2 := by
  simp only [parse_hl7_message] at h
  split at h
  · exact Except.noConfusion h
  · split at h
    · exact Except.noConfusion h
    · have h2 := Except.ok.inj h
      subst h2
      exact ⟨rfl, rfl⟩

lemma aggLoop_fst_map_content (lines : List String) :
    ∀ counts acc, ((aggLoop lines counts acc).1).map segContent
      = acc.map segContent ++ lines.map parse_hl7_segment := by
  induction lines with
  | nil => intro counts acc; simp [aggLoop]
  | cons line rest ih =>
    intro counts acc
    simp only [aggLoop]
    rw [ih]
    simp [segContent_mk, List.append_assoc]

/-- C6: a successfully parsed document has exactly one segment per
non-blank trimmed input line, in original order, and the i-th segment's
type and fields are the tokenization of the i-th such line. -/
theorem parse_all_segments_lines (s : String) (doc : ParsedDocument)
    (h : parse_hl7_message s = .ok doc) :
    doc.all_segments.length = (pyLines s).length ∧
      doc.all_segments.map segContent = (pyLines s).map parse_hl7_segment := by
  obtain ⟨ha, _⟩ := parse_ok_components s doc h
  have hmap : doc.all_segments.map segContent
      = (pyLines s).map parse_hl7_segment := by
    rw [ha, aggLoop_fst_map_content]
    simp
  exact ⟨by simpa using congrArg List.length hmap, hmap⟩

/-- Concrete parsed document used by the aggregation witnesses. -/
def docExample : ParsedDocument :=
  match parse_hl7_message "OBX|1\nOBX|2\nNTE|1" with
  | .ok d => d
  | .error _ => default

/-- Witness for C6 at a concrete three-line message. -/
theorem parse_all_segments_lines_witness :
    docExample.all_segments.length = (pyLines "OBX|1\nOBX|2\nNTE|1").length ∧
      docExample.all_segments.map segContent
        = (pyLines "OBX|1\nOBX|2\nNTE|1").map parse_hl7_segment :=
  parse_all_segments_lines "OBX|1\nOBX|2\nNTE|1" docExample rfl

lemma lookupCount_updateCounts (counts : List (String × Nat)) (t u : String) :
    lookupCount (updateCounts counts t) u
      = if u = t then lookupCount counts t + 1 else lookupCount counts u := by
  induction counts with
  | nil =>
    by_cases hu : u = t
    · subst hu; simp [updateCounts, lookupCount]
    · simp [updateCounts, lookupCount, hu, Ne.symm hu]
  | cons p rest ih =>
    by_cases hp : p.1 = t
    · by_cases hu : u = t
      · subst hu
        simp [updateCounts, lookupCount, hp]
      · simp [updateCounts, lookupCount, hp, hu, Ne.symm hu]
    · by_cases hu : u = t
      · subst hu
        simp [updateCounts, lookupCount, hp, ih]
      · by_cases hpu : p.1 = u
        · simp [updateCounts, lookupCount, hp, hu, hpu]
        · simp [updateCounts, lookupCount, hp, hu, hpu, ih]

lemma getGroup_addToGroup (gs : List (String × List NumberedSegment))
    (seg : NumberedSegment) (t : String) :
    getGroup (addToGroup gs seg) t
      = if seg.segment_type = t then getGroup gs t ++ [seg]
        else getGroup gs t := by
  induction gs with
  | nil =>
    by_cases hs : seg.segment_type = t
    · simp [addToGroup, getGroup, hs]
    · simp [addToGroup, getGroup, hs, Ne.symm hs]
  | cons p rest ih =>
    obtain ⟨pk, pv⟩ := p
    by_cases hp : pk = seg.segment_type
    · by_cases hs : seg.segment_type = t
      · have hpk : pk = t := hp.trans hs
        simp [addToGroup, getGroup, hp, hs, hpk]
      · have hpk : ¬pk = t := fun hh => hs (hp.symm.trans hh)
        simp [addToGroup, getGroup, hp, hs, hpk]
    · by_cases hpt : pk = t
      · have hst : ¬seg.segment_type = t := fun hh => hp (hpt.trans hh.symm)
        have hts : ¬t = seg.segment_type := fun hh => hp (hpt.trans hh)
        simp [addToGroup, getGroup, hp, hpt, hst, hts]
      · by_cases hs : seg.segment_type = t
        · simp [addToGroup, getGroup, hp, hpt, hs, ih]
        · simp [addToGroup, getGroup, hp, hpt, hs, ih]

lemma getGroup_foldl (segs : List NumberedSegment) :
    ∀ gs t, getGroup (segs.foldl addToGroup gs) t
      = getGroup gs t ++ segs.filter (fun s => s.segment_type == t) := by
  induction segs with
  | nil => intro gs t; simp
  | cons seg rest ih =>
    intro gs t
    simp only [List.foldl_cons, ih, getGroup_addToGroup, List.filter_cons]
    by_cases hs : seg.segment_type = t
    · simp [hs, List.append_assoc]
    · simp [hs]

lemma getGroup_groupSegments (segs : List NumberedSegment) (t : String) :
    getGroup (groupSegments segs) t
      = segs.filter (fun s => s.segment_type == t) := by
  simpa [getGroup] using getGroup_foldl segs [] t

/-- The per-type counter/occurrence-number invariant of the main loop of
`parse_hl7_message`. -/
def occInv (counts : List (String × Nat)) (acc : List NumberedSegment) : Prop :=
  ∀ t, lookupCount counts t
        = (acc.filter (fun s => s.segment_type == t)).length ∧
      (acc.filter (fun s => s.segment_type == t)).map
          NumberedSegment.segment_number
        = List.range' 1 (acc.filter (fun s => s.segment_type == t)).length

lemma occInv_nil : occInv [] [] := by
  intro t
  constructor <;> simp [lookupCount]

lemma occInv_step (counts : List (String × Nat)) (acc : List NumberedSegment)
    (h : occInv counts acc) (seg : Segment) :
    occInv (updateCounts counts seg.segment_type)
      (acc ++ [{ segment_type := seg.segment_type, fields := seg.fields,
                 segment_number := lookupCount
                   (updateCounts counts seg.segment_type)
                   seg.segment_type }]) := by
  intro t
  obtain ⟨h1, h2⟩ := h t
  by_cases hτ : seg.segment_type = t
  · subst hτ
    simp only [List.filter_append, List.filter_cons, List.filter_nil,
      beq_self_eq_true, if_true, List.length_append, List.length_cons,
      List.length_nil, List.map_append, List.map_cons, List.map_nil]
    rw [lookupCount_updateCounts, if_pos rfl, h1, h2]
    refine ⟨rfl, ?_⟩
    rw [List.range'_concat]
    simp [Nat.add_comm]
  · have hne : ¬t = seg.segment_type := fun hh => hτ hh.symm
    have hbeq : (seg.segment_type == t) = false := by
      simpa using hτ
    simp only [List.filter_append, List.filter_cons, List.filter_nil, hbeq,
      Bool.false_eq_true, if_false, List.append_nil]
    rw [lookupCount_updateCounts, if_neg hne]
    exact ⟨h1, h2⟩

lemma aggLoop_inv (lines : List String) :
    ∀ counts acc, occInv counts acc →
      occInv (aggLoop lines counts acc).2 (aggLoop lines counts acc).1 := by
  induction lines with
  | nil => intro counts acc h; simpa [aggLoop] using h
  | cons line rest ih =>
    intro counts acc h
    simp only [aggLoop]
    exact ih _ _ (occInv_step counts acc h (parse_hl7_segment line))

lemma foldr_max_of_le (b : Nat) (l : List Nat) (h : ∀ x ∈ l, x ≤ b) :
    l.foldr max b = b := by
  induction l with
  | nil => rfl
  | cons x xs ih =>
    simp only [List.foldr_cons]
    rw [ih fun y hy => h y (List.mem_cons_of_mem x hy)]
    exact Nat.max_eq_right (h x (List.mem_cons_self x xs))

lemma foldr_max_range' (n : Nat) : (List.range' 1 n).foldr max 0 = n := by
  cases n with
  | zero => rfl
  | succ m =>
    rw [List.range'_concat, List.foldr_append]
    simp only [List.foldr_cons, List.foldr_nil, Nat.max_zero]
    rw [foldr_max_of_le _ _ fun x hx => by
      have := List.mem_range'_1.mp hx; omega]
    omega

/-- C5: in every successfully parsed document, for every segment type `T`
present in it, `segment_counts[T]` equals the length of the group of `T`
segments and equals the maximum occurrence number in that group, and the
occurrence numbers in the group, in order, are exactly `1, 2, ...,
segment_counts[T]` (per-type counters, reset per parse call). -/
theorem parse_group_count_invariants (s : String) (doc : ParsedDocument)
    (h : parse_hl7_message s = .ok doc) (T : String)
    (_hT : getGroup (groupSegments doc.all_segments) T ≠ []) :
    lookupCount doc.segment_counts T
        = (getGroup (groupSegments doc.all_segments) T).length ∧
      (getGroup (groupSegments doc.all_segments) T).map
          NumberedSegment.segment_number
        = List.range' 1 (getGroup (groupSegments doc.all_segments) T).length ∧
      ((getGroup (groupSegments doc.all_segments) T).map
          NumberedSegment.segment_number).foldr max 0
        = (getGroup (groupSegments doc.all_segments) T).length := by
  obtain ⟨ha, hc⟩ := parse_ok_components s doc h
  rw [getGroup_groupSegments, ha, hc]
  obtain ⟨h1, h2⟩ := aggLoop_inv (pyLines s) [] [] occInv_nil T
  exact ⟨h1, h2, by rw [h2]; exact foldr_max_range' _⟩

/-- Witness for C5 at a concrete message with two OBX and one NTE lines. -/
theorem parse_group_count_invariants_witness :
    lookupCount docExample.segment_counts "OBX"
        = (getGroup (groupSegments docExample.all_segments) "OBX").length ∧
      (getGroup (groupSegments docExample.all_segments) "OBX").map
          NumberedSegment.segment_number
        = List.range' 1
            (getGroup (groupSegments docExample.all_segments) "OBX").length ∧
      ((getGroup (groupSegments docExample.all_segments) "OBX").map
          NumberedSegment.segment_number).foldr max 0
        = (getGroup (groupSegments docExample.all_segments) "OBX").length :=
  parse_group_count_invariants "OBX|1\nOBX|2\nNTE|1" docExample rfl "OBX"
    (by decide)

end HL7
